import Mathlib

/-
  Verification of the evolutionary coil-design optimizer (aeg_v2.py).

  The Python source is shallowly embedded below.  Genes manipulated by the
  evolutionary operators are modelled as exact rationals; the physics-based
  fitness evaluation, which uses pi, square roots and real powers, is
  modelled over the real numbers.  Random draws (uniform coins, Gaussian
  noise, sampled indices) are passed to each operator as explicit arguments,
  so every operator is a pure function of its inputs and its draws.
-/

namespace AEG

/-! ### Constants of the script (section 1 of the source) -/

def NUM_BOBINAS : ℕ := 6

def RAIO_MINIMO : ℚ := 0.5

def DISTANCIA_MIN_BOBINAS : ℚ := 0.2

def TAMANHO_POPULACAO : ℕ := 100

def NUM_GERACOES : ℕ := 250

def TAXA_MUTACAO : ℚ := 0.08

def TAXA_CRUZAMENTO : ℚ := 0.8

def TAMANHO_TORNEIO : ℕ := 3

/-- MU_0 = 4 * pi * 1e-7, the physical constant of the source. -/
noncomputable def MU_0 : ℝ := 4 * Real.pi * 1e-7

/-- Z_AVALIACAO = np.linspace(-1, 1, 100): the 100 evaluation positions,
the k-th being -1 + k * (2 / 99). -/
noncomputable def Z_AVALIACAO : List ℝ :=
  (List.range 100).map fun k : ℕ => -1 + (k : ℝ) * (2 / 99)

/-! ### The fitness function (section 2 of the source) -/

/-- calcular_campo_eixo_z: on-axis field of a single current loop,
(MU_0 * corrente * raio^2) / (2 * (raio^2 + (z - z_bobina)^2)^(3/2)). -/
noncomputable def calcular_campo_eixo_z (z raio z_bobina corrente : ℝ) : ℝ :=
  (MU_0 * corrente * raio ^ 2) / (2 * (raio ^ 2 + (z - z_bobina) ^ 2) ^ ((3 : ℝ) / 2))

/-- cromossomo.reshape((NUM_BOBINAS, 3)): cut the flat gene list into
(raio, z_pos, corrente) triples. -/
def reshape3 : List ℝ → List (ℝ × ℝ × ℝ)
  | raio :: z_pos :: corrente :: resto => (raio, z_pos, corrente) :: reshape3 resto
  | _ => []

/-- A structurally valid coil: radius at least RAIO_MINIMO and positive
current (the negation of the rejection test of line 47 of the source). -/
def bobina_valida (b : ℝ × ℝ × ℝ) : Prop :=
  (RAIO_MINIMO : ℝ) ≤ b.1 ∧ 0 < b.2.2

/-- The accumulation loop of calcular_aptidao (lines 46-48): walk the coils
in order; on the first coil with raio < RAIO_MINIMO or corrente <= 0 the
whole function returns the sentinel (modelled by none); otherwise each coil
adds its field profile to the running campo_total. -/
noncomputable def loop_bobinas : List (ℝ × ℝ × ℝ) → List ℝ → Option (List ℝ)
  | [], campo_total => some campo_total
  | (raio, z_pos, corrente) :: resto, campo_total =>
    if raio < (RAIO_MINIMO : ℝ) ∨ corrente ≤ 0 then none
    else loop_bobinas resto
      (List.zipWith (· + ·) campo_total
        (Z_AVALIACAO.map fun z => calcular_campo_eixo_z z raio z_pos corrente))

/-- np.mean over a list of reals. -/
noncomputable def media (xs : List ℝ) : ℝ := xs.sum / xs.length

/-- np.std over a list of reals (population standard deviation, ddof = 0). -/
noncomputable def desvio_padrao (xs : List ℝ) : ℝ :=
  Real.sqrt ((xs.map fun x => (x - media xs) ^ 2).sum / xs.length)

/-- The spacing-penalty double loop of calcular_aptidao (lines 59-64):
for i in range(NUM_BOBINAS), for j in range(i+1, NUM_BOBINAS), add 5000
whenever the two axial positions are closer than DISTANCIA_MIN_BOBINAS. -/
noncomputable def penalidade_espacamento (posicoes_z : List ℝ) : ℝ :=
  ∑ i ∈ Finset.range NUM_BOBINAS, ∑ j ∈ Finset.Ico (i + 1) NUM_BOBINAS,
    if |posicoes_z.getD i 0 - posicoes_z.getD j 0| < (DISTANCIA_MIN_BOBINAS : ℝ)
    then (5000 : ℝ) else 0

/-- Specification-side count: the set of unordered coil pairs (represented
as ordered index pairs i < j over the NUM_BOBINAS coils) whose axial
positions differ by less than the minimum spacing. -/
noncomputable def pares_violadores (posicoes_z : List ℝ) : Finset (ℕ × ℕ) :=
  (Finset.range NUM_BOBINAS ×ˢ Finset.range NUM_BOBINAS).filter fun p =>
    p.1 < p.2 ∧ |posicoes_z.getD p.1 0 - posicoes_z.getD p.2 0| < (DISTANCIA_MIN_BOBINAS : ℝ)

/-- The summed field profile of a coil list over the evaluation positions
(the value of campo_total when no coil is rejected). -/
noncomputable def perfil_campo (bobinas : List (ℝ × ℝ × ℝ)) : List ℝ :=
  Z_AVALIACAO.map fun z =>
    (bobinas.map fun b => calcular_campo_eixo_z z b.1 b.2.1 b.2.2).sum

/-- calcular_aptidao (lines 38-68 of the source). -/
noncomputable def calcular_aptidao (cromossomo : List ℝ) : ℝ :=
  match loop_bobinas (reshape3 cromossomo) (Z_AVALIACAO.map fun _ => 0) with
  | none => -1e9
  | some campo_total =>
    if media campo_total < 0.1 then 0.1
    else
      let coef_variacao := desvio_padrao campo_total / media campo_total
      let aptidao_uniformidade := 1 / (coef_variacao + 1e-9)
      let penalidade := penalidade_espacamento ((reshape3 cromossomo).map fun b => b.2.1)
      (1.0 * media campo_total) * (5.0 * aptidao_uniformidade) - penalidade

/-! ### The evolutionary operators (section 3 of the source)

Genes are modelled as exact rationals; each np.random draw becomes an
explicit argument of the operator that consumes it. -/

/-- inicializar_populacao (lines 72-81), with the population size as a
parameter and rand p i the uniform [0,1) draw for gene i of chromosome p.
Gene i is a radius when i % 3 = 0 (scaled into [RAIO_MINIMO, 2]), an axial
position when i % 3 = 1 (scaled into [-2, 2]) and a current when i % 3 = 2
(scaled into [1e6, 1e7]). -/
def inicializar_populacao (tam_pop : ℕ) (rand : ℕ → ℕ → ℚ) : List (List ℚ) :=
  (List.range tam_pop).map fun p =>
    (List.range (NUM_BOBINAS * 3)).map fun i =>
      let u := rand p i
      if i % 3 = 0 then u * (2 - RAIO_MINIMO) + RAIO_MINIMO
      else if i % 3 = 1 then u * 4 - 2
      else u * 9000000 + 1000000

/-- Python max(iterable, key=key): fold keeping the current best, replacing
it only on a strictly larger key, so ties go to the first occurrence.
Returns none on an empty list (where Python max raises). -/
def max_by_key {β : Type} [LinearOrder β] (key : ℕ → β) : List ℕ → Option ℕ
  | [] => none
  | x :: xs => some (xs.foldl (fun acc y => if key acc < key y then y else acc) x)

/-- np.argmax over a list: the first index attaining the maximum value
(numpy documents first-occurrence tie-breaking). -/
def np_argmax {β : Type} [LinearOrder β] [Inhabited β] (xs : List β) : ℕ :=
  (max_by_key (fun i => xs.getD i default) (List.range xs.length)).getD 0

/-- populacao[np.argmax(aptidoes_finais)] (line 129 of the source). -/
def melhor_individuo {α β : Type} [LinearOrder β] [Inhabited β]
    (populacao : List (List α)) (aptidoes : List β) : List α :=
  populacao.getD (np_argmax aptidoes) []

/-- np.random.choice(n, k, replace=False): raises a ValueError when the
requested sample is larger than the population, otherwise returns k
sampled indices (the draw itself is passed in as the sampled list). -/
def np_random_choice (n k : ℕ) (amostra : List ℕ) : Except String (List ℕ) :=
  if n < k then
    Except.error "Cannot take a larger sample than population when replace=False"
  else Except.ok (amostra.take k)

/-- selecao (lines 83-86), with the tournament size as a parameter and the
drawn indices passed in; returns populacao[melhor_idx], where melhor_idx is
chosen by Python max with key aptidoes[i]. The np.random.choice failure
for tournaments larger than the population is surfaced as Except.error. -/
def selecao {α β : Type} [LinearOrder β] [Inhabited β] (tam_torneio : ℕ)
    (populacao : List (List α)) (aptidoes : List β) (amostra : List ℕ) :
    Except String (List α) :=
  (np_random_choice populacao.length tam_torneio amostra).map fun selecionados =>
    populacao.getD ((max_by_key (fun i => aptidoes.getD i default) selecionados).getD 0) []

/-- The set of values np.random.randint(1, L - 1) can return: NumPy randint
excludes its upper bound, so the cut points are 1, ..., L - 2. -/
def pontos_corte (L : ℕ) : Finset ℕ := Finset.Ico 1 (L - 1)

/-- cruzamento (lines 88-94): r is the np.random.rand() coin and ponto the
np.random.randint cut draw. Below the crossover rate the children swap
tails at ponto; otherwise the parents are returned unchanged. -/
def cruzamento (r : ℚ) (ponto : ℕ) (pai1 pai2 : List ℚ) : List ℚ × List ℚ :=
  if r < TAXA_CRUZAMENTO then
    (pai1.take ponto ++ pai2.drop ponto, pai2.take ponto ++ pai1.drop ponto)
  else (pai1, pai2)

/-- One gene of mutacao (lines 97-101): coin is the np.random.rand() draw,
ruido the np.random.normal(0, 0.2) draw. When the coin fires, the gene is
perturbed and, only at radius positions (i % 3 = 0), clamped up to
RAIO_MINIMO when the perturbed value fell below it. -/
def mutacao_gene (taxa : ℚ) (i : ℕ) (coin ruido x : ℚ) : ℚ :=
  if coin < taxa then
    if i % 3 = 0 ∧ x + ruido < RAIO_MINIMO then (RAIO_MINIMO : ℚ) else x + ruido
  else x

/-- mutacao (lines 96-102) as a value-level function: the loop body applied
to every gene index, with per-index coins and noise draws. -/
def mutacao (taxa : ℚ) (coin ruido : ℕ → ℚ) (cromossomo : List ℚ) : List ℚ :=
  (List.range cromossomo.length).map fun i =>
    mutacao_gene taxa i (coin i) (ruido i) (cromossomo.getD i 0)

/-! ### Object-identity model of the reproducing phase (lines 112-118)

Python lists hold references to numpy arrays: selecao returns
populacao[melhor_idx] (an alias into the population), the identity branch
of cruzamento returns its argument references, np.concatenate allocates
fresh arrays, and mutacao writes cromossomo[i] += ... through whatever
reference it was handed. A reference is either an index into the current
population array or a fresh array value. -/

/-- A reference: Sum.inl i points at populacao[i], Sum.inr v is a fresh
array holding value v. -/
def RefArr : Type := ℕ ⊕ List ℚ

/-- Read the array value a reference currently designates. -/
def deref (populacao : List (List ℚ)) : RefArr → List ℚ
  | Sum.inl i => populacao.getD i []
  | Sum.inr v => v

/-- cruzamento at the reference level: the crossover branch builds fresh
arrays with np.concatenate; the identity branch returns the parent
references themselves (no copy is made). -/
def cruzamento_ref (populacao : List (List ℚ)) (r : ℚ) (ponto : ℕ)
    (pai1 pai2 : RefArr) : RefArr × RefArr :=
  if r < TAXA_CRUZAMENTO then
    (Sum.inr ((deref populacao pai1).take ponto ++ (deref populacao pai2).drop ponto),
     Sum.inr ((deref populacao pai2).take ponto ++ (deref populacao pai1).drop ponto))
  else (pai1, pai2)

/-- mutacao at the reference level: the in-place updates write through the
reference, so when it aliases populacao[i] the population itself changes;
the (unchanged) reference is also the return value of mutacao. -/
def mutacao_ref (taxa : ℚ) (coin ruido : ℕ → ℚ) (populacao : List (List ℚ))
    (ref : RefArr) : List (List ℚ) × List ℚ :=
  let novo := mutacao taxa coin ruido (deref populacao ref)
  match ref with
  | Sum.inl i => (populacao.set i novo, novo)
  | Sum.inr _ => (populacao, novo)

/-- One iteration of the inner reproduction loop (lines 114-118): selecao
returns aliases populacao[idx1], populacao[idx2]; cruzamento may pass those
aliases through; mutacao then mutates each child in place. Returns the
population as it stands after the two mutacao calls together with the two
children appended to nova_populacao. -/
def passo_par (populacao : List (List ℚ)) (idx1 idx2 : ℕ) (r_cruz : ℚ)
    (ponto : ℕ) (coin1 ruido1 coin2 ruido2 : ℕ → ℚ) :
    List (List ℚ) × List ℚ × List ℚ :=
  let pai1 : RefArr := Sum.inl idx1
  let pai2 : RefArr := Sum.inl idx2
  let filhos := cruzamento_ref populacao r_cruz ponto pai1 pai2
  let passo1 := mutacao_ref TAXA_MUTACAO coin1 ruido1 populacao filhos.1
  let passo2 := mutacao_ref TAXA_MUTACAO coin2 ruido2 passo1.1 filhos.2
  (passo2.1, passo1.2, passo2.2)

/-- The shape of the nova_populacao loop (lines 112-118): TAMANHO_POPULACAO
// 2 iterations, each appending the two children its pair produced (par k
abstracts everything the k-th iteration draws). -/
def loop_reproducao (tam_pop : ℕ) (par : ℕ → List ℚ × List ℚ) : List (List ℚ) :=
  (List.range (tam_pop / 2)).foldl (fun acc k => acc ++ [(par k).1, (par k).2]) []

/-! ### Concrete chromosomes used by the witnesses -/

/-- A concrete 18-gene parent for the crossover witness. -/
def genes_a : List ℚ :=
  [1, 2, 3, 4, 5, 6, 7, 8, 9, 10, 11, 12, 13, 14, 15, 16, 17, 18]

/-- A second concrete 18-gene parent for the crossover witness. -/
def genes_b : List ℚ :=
  [21, 22, 23, 24, 25, 26, 27, 28, 29, 30, 31, 32, 33, 34, 35, 36, 37, 38]

/-- Six identical coils of radius 1 at position 0 carrying current 1: valid,
with every coil pair overlapping, and a very weak total field. -/
noncomputable def cromossomo_fraco : List ℝ :=
  [1, 0, 1, 1, 0, 1, 1, 0, 1, 1, 0, 1, 1, 0, 1, 1, 0, 1]

/-- Six identical coils of radius 1/2 at position 0 carrying current 1e7
(the top of the initializer current range): valid, with a strong field. -/
noncomputable def cromossomo_forte : List ℝ :=
  [1/2, 0, 10000000, 1/2, 0, 10000000, 1/2, 0, 10000000,
   1/2, 0, 10000000, 1/2, 0, 10000000, 1/2, 0, 10000000]

/-- A valid chromosome with spread-out coil positions. -/
noncomputable def cromossomo_espalhado : List ℝ :=
  [1, -2, 5, 1, -1, 5, 1, 0, 5, 1, 1, 5, 1, 2, 5, 2, 3, 5]

/-- A chromosome whose fourth coil carries current 0 (invalid). -/
noncomputable def cromossomo_invalido : List ℝ :=
  [1, 0, 1, 1, 1, 1, 1, 2, 1, 1, 3, 0, 1, 4, 1, 1, 5, 1]

/-! ### Basic facts about the evaluation axis -/

lemma Z_AVALIACAO_length : Z_AVALIACAO.length = 100 := by
  rw [Z_AVALIACAO, List.length_map, List.length_range]

lemma Z_AVALIACAO_ne_nil : Z_AVALIACAO ≠ [] := by
  intro h
  have := Z_AVALIACAO_length
  rw [h] at this
  simp at this

lemma Z_AVALIACAO_sq_le_one {z : ℝ} (hz : z ∈ Z_AVALIACAO) : z ^ 2 ≤ 1 := by
  rw [Z_AVALIACAO] at hz
  obtain ⟨k, hk, rfl⟩ := List.mem_map.mp hz
  have hk100 : k < 100 := List.mem_range.mp hk
  have hk99 : (k : ℝ) ≤ 99 := by exact_mod_cast Nat.lt_succ_iff.mp hk100
  have hk0 : (0 : ℝ) ≤ (k : ℝ) := Nat.cast_nonneg k
  nlinarith

/-! ### The accumulation loop and the field profile -/

lemma zipWith_add_map {γ : Type} (l : List γ) (f g : γ → ℝ) :
    List.zipWith (· + ·) (l.map f) (l.map g) = l.map fun z => f z + g z := by
  induction l with
  | nil => rfl
  | cons x xs ih => simp [ih]

lemma loop_bobinas_invalida (bs : List (ℝ × ℝ × ℝ))
    (h : ∃ b ∈ bs, b.1 < (RAIO_MINIMO : ℝ) ∨ b.2.2 ≤ 0) :
    ∀ acc, loop_bobinas bs acc = none := by
  induction bs with
  | nil => simp at h
  | cons b resto ih =>
    intro acc
    obtain ⟨x, hx, hxbad⟩ := h
    rcases List.mem_cons.mp hx with rfl | hmem
    · obtain ⟨raio, z_pos, corrente⟩ := x
      rw [loop_bobinas, if_pos hxbad]
    · obtain ⟨raio, z_pos, corrente⟩ := b
      rw [loop_bobinas]
      by_cases hb : raio < (RAIO_MINIMO : ℝ) ∨ corrente ≤ 0
      · rw [if_pos hb]
      · rw [if_neg hb]
        exact ih ⟨x, hmem, hxbad⟩ _

lemma loop_bobinas_valida (bs : List (ℝ × ℝ × ℝ))
    (h : ∀ b ∈ bs, bobina_valida b) :
    ∀ f : ℝ → ℝ, loop_bobinas bs (Z_AVALIACAO.map f) =
      some (Z_AVALIACAO.map fun z =>
        f z + (bs.map fun b => calcular_campo_eixo_z z b.1 b.2.1 b.2.2).sum) := by
  induction bs with
  | nil => intro f; simp [loop_bobinas]
  | cons b resto ih =>
    intro f
    obtain ⟨raio, z_pos, corrente⟩ := b
    have hb := h _ (List.mem_cons_self _ _)
    have hnot : ¬(raio < (RAIO_MINIMO : ℝ) ∨ corrente ≤ 0) := by
      push_neg
      exact hb
    rw [loop_bobinas, if_neg hnot, zipWith_add_map,
      ih (fun x hx => h x (List.mem_cons_of_mem _ hx))]
    congr 1
    apply List.map_congr_left
    intro z _
    simp only [List.map_cons, List.sum_cons]
    ring

/-- For a chromosome whose coils are all valid, calcular_aptidao follows the
branch structure after the loop: threshold check, then the weighted
strength-uniformity product minus the spacing penalty. -/
lemma calcular_aptidao_valida (c : List ℝ)
    (hval : ∀ b ∈ reshape3 c, bobina_valida b) :
    calcular_aptidao c =
      if media (perfil_campo (reshape3 c)) < 0.1 then 0.1
      else
        (1.0 * media (perfil_campo (reshape3 c))) *
          (5.0 * (1 / (desvio_padrao (perfil_campo (reshape3 c)) /
            media (perfil_campo (reshape3 c)) + 1e-9))) -
          penalidade_espacamento ((reshape3 c).map fun b => b.2.1) := by
  have hloop := loop_bobinas_valida (reshape3 c) hval (fun _ => 0)
  rw [calcular_aptidao, hloop]
  have hperfil : (Z_AVALIACAO.map fun z =>
      (0 : ℝ) + ((reshape3 c).map fun b => calcular_campo_eixo_z z b.1 b.2.1 b.2.2).sum) =
      perfil_campo (reshape3 c) := by
    rw [perfil_campo]
    apply List.map_congr_left
    intro z _
    ring
  rw [hperfil]

lemma calcular_aptidao_invalida (c : List ℝ)
    (hinv : ∃ b ∈ reshape3 c, b.1 < (RAIO_MINIMO : ℝ) ∨ b.2.2 ≤ 0) :
    calcular_aptidao c = -1e9 := by
  rw [calcular_aptidao, loop_bobinas_invalida _ hinv]

/-! ### The spacing penalty as a pair count -/

lemma penalidade_eq (pos : List ℝ) :
    penalidade_espacamento pos = 5000 * ((pares_violadores pos).card : ℝ) := by
  rw [penalidade_espacamento, pares_violadores, Finset.card_filter]
  push_cast
  rw [Finset.mul_sum, Finset.sum_product]
  refine Finset.sum_congr rfl fun i _ => ?_
  simp only [mul_ite, mul_one, mul_zero]
  have hsub : Finset.Ico (i + 1) NUM_BOBINAS ⊆ Finset.range NUM_BOBINAS := by
    intro j hj
    rw [Finset.mem_range]
    exact (Finset.mem_Ico.mp hj).2
  have hzero : ∀ j ∈ Finset.range NUM_BOBINAS, j ∉ Finset.Ico (i + 1) NUM_BOBINAS →
      (if i < j ∧ |pos.getD i 0 - pos.getD j 0| < (DISTANCIA_MIN_BOBINAS : ℝ)
        then (5000 : ℝ) else 0) = 0 := by
    intro j hj hj2
    have hji : ¬ i < j := by
      rw [Finset.mem_range] at hj
      rw [Finset.mem_Ico] at hj2
      omega
    exact if_neg fun hand => hji hand.1
  rw [← Finset.sum_subset hsub hzero]
  refine Finset.sum_congr rfl fun j hj => ?_
  have hij : i < j := Nat.lt_of_succ_le (Finset.mem_Ico.mp hj).1
  simp [hij]

lemma pares_violadores_card_le (pos : List ℝ) : (pares_violadores pos).card ≤ 36 := by
  calc (pares_violadores pos).card
      ≤ (Finset.range NUM_BOBINAS ×ˢ Finset.range NUM_BOBINAS).card :=
        Finset.card_filter_le _ _
    _ = 36 := by rw [Finset.card_product, Finset.card_range, NUM_BOBINAS]

lemma penalidade_le (pos : List ℝ) : penalidade_espacamento pos ≤ 180000 := by
  rw [penalidade_eq]
  have h : ((pares_violadores pos).card : ℝ) ≤ 36 := by
    exact_mod_cast pares_violadores_card_le pos
  linarith

/-! ### Bounds on means and fields -/

lemma media_le {xs : List ℝ} {B : ℝ} (h : ∀ x ∈ xs, x ≤ B) (hne : xs ≠ []) :
    media xs ≤ B := by
  have hlen : (0 : ℝ) < xs.length := by exact_mod_cast List.length_pos.mpr hne
  rw [media, div_le_iff₀ hlen]
  calc xs.sum ≤ xs.length • B := List.sum_le_card_nsmul xs B h
    _ = B * xs.length := by rw [nsmul_eq_mul]; ring

lemma le_media {xs : List ℝ} {b : ℝ} (h : ∀ x ∈ xs, b ≤ x) (hne : xs ≠ []) :
    b ≤ media xs := by
  have hlen : (0 : ℝ) < xs.length := by exact_mod_cast List.length_pos.mpr hne
  rw [media, le_div_iff₀ hlen]
  calc b * xs.length = xs.length • b := by rw [nsmul_eq_mul]; ring
    _ ≤ xs.sum := List.card_nsmul_le_sum xs b h

lemma MU_0_nonneg : 0 ≤ MU_0 := by
  rw [MU_0]
  positivity

lemma calcular_campo_nonneg (z raio z_bobina corrente : ℝ) (hc : 0 ≤ corrente) :
    0 ≤ calcular_campo_eixo_z z raio z_bobina corrente := by
  rw [calcular_campo_eixo_z]
  apply div_nonneg
  · exact mul_nonneg (mul_nonneg MU_0_nonneg hc) (sq_nonneg raio)
  · have : (0 : ℝ) ≤ raio ^ 2 + (z - z_bobina) ^ 2 := by positivity
    positivity

/-- A unit coil carrying unit current contributes at most MU_0 / 2 at any
axial position. -/
lemma campo_fraco_le (z z_bobina : ℝ) :
    calcular_campo_eixo_z z 1 z_bobina 1 ≤ MU_0 / 2 := by
  rw [calcular_campo_eixo_z]
  have hbase : (1 : ℝ) ≤ 1 ^ 2 + (z - z_bobina) ^ 2 := by nlinarith [sq_nonneg (z - z_bobina)]
  have hr : (1 : ℝ) ≤ (1 ^ 2 + (z - z_bobina) ^ 2) ^ ((3 : ℝ) / 2) := by
    calc (1 : ℝ) = 1 ^ ((3 : ℝ) / 2) := (Real.one_rpow _).symm
      _ ≤ _ := Real.rpow_le_rpow zero_le_one hbase (by norm_num)
  have hnum : MU_0 * 1 * (1 : ℝ) ^ 2 = MU_0 := by ring
  rw [hnum]
  rw [div_le_div_iff₀ (by linarith) (by norm_num)]
  nlinarith [MU_0_nonneg]

lemma rpow_three_halves_le_two {x : ℝ} (h0 : 0 ≤ x) (h : x ≤ 5 / 4) :
    x ^ ((3 : ℝ) / 2) ≤ 2 := by
  have h1 : x ^ ((3 : ℝ) / 2) ≤ (5 / 4 : ℝ) ^ ((3 : ℝ) / 2) :=
    Real.rpow_le_rpow h0 h (by norm_num)
  have h2 : ((5 / 4 : ℝ) ^ ((3 : ℝ) / 2)) ^ (2 : ℕ) = 125 / 64 := by
    rw [← Real.rpow_natCast ((5 / 4 : ℝ) ^ ((3 : ℝ) / 2)) 2,
      ← Real.rpow_mul (by norm_num : (0 : ℝ) ≤ 5 / 4)]
    norm_num
  have h3 : 0 ≤ (5 / 4 : ℝ) ^ ((3 : ℝ) / 2) := Real.rpow_nonneg (by norm_num) _
  nlinarith [sq_nonneg ((5 / 4 : ℝ) ^ ((3 : ℝ) / 2) - 2)]

/-- A coil of radius 1/2 at the origin carrying current 1e7 contributes at
least pi / 4 at every evaluation position with z ^ 2 <= 1. -/
lemma campo_forte_ge {z : ℝ} (hz : z ^ 2 ≤ 1) :
    Real.pi / 4 ≤ calcular_campo_eixo_z z (1 / 2) 0 10000000 := by
  rw [calcular_campo_eixo_z, MU_0]
  have hbase0 : (0 : ℝ) < (1 / 2 : ℝ) ^ 2 + (z - 0) ^ 2 := by positivity
  have hbase : (1 / 2 : ℝ) ^ 2 + (z - 0) ^ 2 ≤ 5 / 4 := by nlinarith
  have ht := rpow_three_halves_le_two hbase0.le hbase
  have htpos : 0 < ((1 / 2 : ℝ) ^ 2 + (z - 0) ^ 2) ^ ((3 : ℝ) / 2) :=
    Real.rpow_pos_of_pos hbase0 _
  have hnum : 4 * Real.pi * 1e-7 * 10000000 * (1 / 2 : ℝ) ^ 2 = Real.pi := by
    norm_num
    ring
  rw [div_le_div_iff₀ (by norm_num) (by positivity), hnum]
  nlinarith [Real.pi_pos]

/-! ### Any structurally valid chromosome beats the sentinel -/

lemma calcular_aptidao_maior_sentinela (c : List ℝ)
    (hval : ∀ b ∈ reshape3 c, bobina_valida b) :
    -1e9 < calcular_aptidao c := by
  rw [calcular_aptidao_valida c hval]
  by_cases hm : media (perfil_campo (reshape3 c)) < 0.1
  · rw [if_pos hm]
    norm_num
  · rw [if_neg hm]
    push_neg at hm
    have hm0 : 0 < media (perfil_campo (reshape3 c)) := lt_of_lt_of_le (by norm_num) hm
    have hdp : 0 ≤ desvio_padrao (perfil_campo (reshape3 c)) := Real.sqrt_nonneg _
    have hcv : 0 ≤ desvio_padrao (perfil_campo (reshape3 c)) /
        media (perfil_campo (reshape3 c)) := div_nonneg hdp hm0.le
    have hden : 0 < desvio_padrao (perfil_campo (reshape3 c)) /
        media (perfil_campo (reshape3 c)) + 1e-9 := by
      have : (0 : ℝ) < 1e-9 := by norm_num
      linarith
    have hu : 0 < 1 / (desvio_padrao (perfil_campo (reshape3 c)) /
        media (perfil_campo (reshape3 c)) + 1e-9) := one_div_pos.mpr hden
    have hpen := penalidade_le ((reshape3 c).map fun b => b.2.1)
    have hprod : 0 < (1.0 * media (perfil_campo (reshape3 c))) *
        (5.0 * (1 / (desvio_padrao (perfil_campo (reshape3 c)) /
          media (perfil_campo (reshape3 c)) + 1e-9))) := by
      apply mul_pos
      · linarith
      · apply mul_pos (by norm_num) hu
    linarith

/-! ### Concrete profile bounds for the witnesses -/

lemma reshape3_fraco :
    reshape3 cromossomo_fraco = [(1, 0, 1), (1, 0, 1), (1, 0, 1), (1, 0, 1), (1, 0, 1), (1, 0, 1)] := by
  rw [cromossomo_fraco]
  rfl

lemma reshape3_forte :
    reshape3 cromossomo_forte =
      [(1 / 2, 0, 10000000), (1 / 2, 0, 10000000), (1 / 2, 0, 10000000),
       (1 / 2, 0, 10000000), (1 / 2, 0, 10000000), (1 / 2, 0, 10000000)] := by
  rw [cromossomo_forte]
  rfl

lemma perfil_ne_nil (bs : List (ℝ × ℝ × ℝ)) : perfil_campo bs ≠ [] := by
  rw [perfil_campo]
  intro h
  exact Z_AVALIACAO_ne_nil (List.map_eq_nil_iff.mp h)

lemma media_fraco_lt : media (perfil_campo (reshape3 cromossomo_fraco)) < 0.1 := by
  have hB : ∀ x ∈ perfil_campo (reshape3 cromossomo_fraco), x ≤ 3 * MU_0 := by
    intro x hx
    rw [perfil_campo] at hx
    obtain ⟨z, hz, rfl⟩ := List.mem_map.mp hx
    rw [reshape3_fraco]
    simp only [List.map_cons, List.map_nil, List.sum_cons, List.sum_nil, add_zero]
    have h := campo_fraco_le z 0
    linarith
  have hm := media_le hB (perfil_ne_nil _)
  have hMU : 3 * MU_0 < 0.1 := by
    rw [MU_0]
    nlinarith [Real.pi_le_four]
  linarith

lemma media_forte_ge : ¬ media (perfil_campo (reshape3 cromossomo_forte)) < 0.1 := by
  rw [not_lt]
  have hb : ∀ x ∈ perfil_campo (reshape3 cromossomo_forte), Real.pi / 4 ≤ x := by
    intro x hx
    rw [perfil_campo] at hx
    obtain ⟨z, hz, rfl⟩ := List.mem_map.mp hx
    rw [reshape3_forte]
    simp only [List.map_cons, List.map_nil, List.sum_cons, List.sum_nil, add_zero]
    have h1 := campo_forte_ge (Z_AVALIACAO_sq_le_one hz)
    have h2 := calcular_campo_nonneg z (1 / 2) 0 10000000 (by norm_num)
    linarith
  have hm := le_media hb (perfil_ne_nil _)
  have : (0.1 : ℝ) ≤ Real.pi / 4 := by linarith [Real.pi_gt_three]
  linarith

/-! ### The claims about the fitness evaluator -/

/-- C1: for any 6-coil chromosome, if some coil has radius below
RAIO_MINIMO or current at most 0, calcular_aptidao returns exactly the
sentinel -1e9, regardless of every other coil. -/
theorem aptidao_sentinela_se_bobina_invalida (c : List ℝ) (hlen : c.length = 18)
    (hinv : ∃ b ∈ reshape3 c, b.1 < (RAIO_MINIMO : ℝ) ∨ b.2.2 ≤ 0) :
    calcular_aptidao c = -1e9 :=
  calcular_aptidao_invalida c hinv

/-- Witness for C1: a concrete chromosome whose fourth coil has current 0
evaluates to the sentinel. -/
theorem aptidao_sentinela_se_bobina_invalida_witness :
    cromossomo_invalido.length = 18 ∧
    (∃ b ∈ reshape3 cromossomo_invalido, b.1 < (RAIO_MINIMO : ℝ) ∨ b.2.2 ≤ 0) ∧
    calcular_aptidao cromossomo_invalido = -1e9 := by
  have hlen : cromossomo_invalido.length = 18 := by rw [cromossomo_invalido]; rfl
  have hinv : ∃ b ∈ reshape3 cromossomo_invalido, b.1 < (RAIO_MINIMO : ℝ) ∨ b.2.2 ≤ 0 := by
    refine ⟨(1, 3, 0), ?_, Or.inr le_rfl⟩
    rw [cromossomo_invalido]
    simp [reshape3]
  exact ⟨hlen, hinv, aptidao_sentinela_se_bobina_invalida _ hlen hinv⟩

/-- C2: every structurally valid 6-coil chromosome receives a fitness
strictly greater than the sentinel -1e9. -/
theorem aptidao_valida_supera_sentinela (c : List ℝ) (hlen : c.length = 18)
    (hval : ∀ b ∈ reshape3 c, bobina_valida b) :
    -1e9 < calcular_aptidao c :=
  calcular_aptidao_maior_sentinela c hval

/-- Witness for C2 on a concrete valid chromosome with spread-out coils. -/
theorem aptidao_valida_supera_sentinela_witness :
    cromossomo_espalhado.length = 18 ∧
    (∀ b ∈ reshape3 cromossomo_espalhado, bobina_valida b) ∧
    -1e9 < calcular_aptidao cromossomo_espalhado := by
  have hlen : cromossomo_espalhado.length = 18 := by rw [cromossomo_espalhado]; rfl
  have hval : ∀ b ∈ reshape3 cromossomo_espalhado, bobina_valida b := by
    rw [cromossomo_espalhado]
    intro b hb
    simp only [reshape3, List.mem_cons, List.not_mem_nil, or_false] at hb
    rcases hb with rfl | rfl | rfl | rfl | rfl | rfl <;>
      exact ⟨by norm_num [RAIO_MINIMO], by norm_num⟩
  exact ⟨hlen, hval, aptidao_valida_supera_sentinela _ hlen hval⟩

/-- C3: a structurally valid chromosome whose mean field profile lies below
the 0.1 strength floor gets exactly the fixed score 0.1; the spacing
penalty is not subtracted even when coil pairs violate the spacing
constraint. -/
theorem aptidao_campo_fraco (c : List ℝ) (hlen : c.length = 18)
    (hval : ∀ b ∈ reshape3 c, bobina_valida b)
    (hm : media (perfil_campo (reshape3 c)) < 0.1) :
    calcular_aptidao c = 0.1 := by
  rw [calcular_aptidao_valida c hval, if_pos hm]

/-- Witness for C3: six overlapping weak coils (all positions equal, so
every pair violates the spacing constraint) still score exactly 0.1. -/
theorem aptidao_campo_fraco_witness :
    cromossomo_fraco.length = 18 ∧
    (∀ b ∈ reshape3 cromossomo_fraco, bobina_valida b) ∧
    media (perfil_campo (reshape3 cromossomo_fraco)) < 0.1 ∧
    pares_violadores ((reshape3 cromossomo_fraco).map fun b => b.2.1) ≠ ∅ ∧
    calcular_aptidao cromossomo_fraco = 0.1 := by
  have hlen : cromossomo_fraco.length = 18 := by rw [cromossomo_fraco]; rfl
  have hval : ∀ b ∈ reshape3 cromossomo_fraco, bobina_valida b := by
    rw [reshape3_fraco]
    intro b hb
    simp only [List.mem_cons, List.not_mem_nil, or_false] at hb
    rcases hb with rfl | rfl | rfl | rfl | rfl | rfl <;>
      exact ⟨by norm_num [RAIO_MINIMO], by norm_num⟩
  have hpar : pares_violadores ((reshape3 cromossomo_fraco).map fun b => b.2.1) ≠ ∅ := by
    apply Finset.ne_empty_of_mem (a := ((0 : ℕ), (1 : ℕ)))
    rw [pares_violadores, Finset.mem_filter, reshape3_fraco]
    refine ⟨Finset.mem_product.mpr ⟨?_, ?_⟩, by norm_num, ?_⟩
    · simp [NUM_BOBINAS]
    · simp [NUM_BOBINAS]
    · norm_num [DISTANCIA_MIN_BOBINAS]
  exact ⟨hlen, hval, media_fraco_lt, hpar,
    aptidao_campo_fraco _ hlen hval media_fraco_lt⟩

/-- C4: past the strength floor, the spacing penalty of a valid chromosome
is exactly 5000 times the number of unordered coil pairs closer than the
minimum spacing (0 when no pair violates), and the fitness is the weighted
strength-uniformity product minus that penalty. -/
theorem aptidao_formula_penalidade (c : List ℝ) (hlen : c.length = 18)
    (hval : ∀ b ∈ reshape3 c, bobina_valida b)
    (hm : ¬ media (perfil_campo (reshape3 c)) < 0.1) :
    penalidade_espacamento ((reshape3 c).map fun b => b.2.1) =
      5000 * ((pares_violadores ((reshape3 c).map fun b => b.2.1)).card : ℝ) ∧
    ((pares_violadores ((reshape3 c).map fun b => b.2.1)).card = 0 →
      penalidade_espacamento ((reshape3 c).map fun b => b.2.1) = 0) ∧
    calcular_aptidao c =
      (1.0 * media (perfil_campo (reshape3 c))) *
        (5.0 * (1 / (desvio_padrao (perfil_campo (reshape3 c)) /
          media (perfil_campo (reshape3 c)) + 1e-9))) -
        5000 * ((pares_violadores ((reshape3 c).map fun b => b.2.1)).card : ℝ) := by
  refine ⟨penalidade_eq _, fun h0 => ?_, ?_⟩
  · rw [penalidade_eq, h0]
    norm_num
  · rw [calcular_aptidao_valida c hval, if_neg hm, penalidade_eq]

/-- Witness for C4: six strong overlapping coils pass the strength floor,
so their fitness is the documented formula minus the pair-count penalty. -/
theorem aptidao_formula_penalidade_witness :
    cromossomo_forte.length = 18 ∧
    (∀ b ∈ reshape3 cromossomo_forte, bobina_valida b) ∧
    ¬ media (perfil_campo (reshape3 cromossomo_forte)) < 0.1 ∧
    calcular_aptidao cromossomo_forte =
      (1.0 * media (perfil_campo (reshape3 cromossomo_forte))) *
        (5.0 * (1 / (desvio_padrao (perfil_campo (reshape3 cromossomo_forte)) /
          media (perfil_campo (reshape3 cromossomo_forte)) + 1e-9))) -
        5000 * ((pares_violadores ((reshape3 cromossomo_forte).map fun b => b.2.1)).card : ℝ) := by
  have hlen : cromossomo_forte.length = 18 := by rw [cromossomo_forte]; rfl
  have hval : ∀ b ∈ reshape3 cromossomo_forte, bobina_valida b := by
    rw [reshape3_forte]
    intro b hb
    simp only [List.mem_cons, List.not_mem_nil, or_false] at hb
    rcases hb with rfl | rfl | rfl | rfl | rfl | rfl <;>
      exact ⟨by norm_num [RAIO_MINIMO], by norm_num⟩
  exact ⟨hlen, hval, media_forte_ge,
    (aptidao_formula_penalidade _ hlen hval media_forte_ge).2.2⟩

/-- C5: calcular_aptidao is total on structurally valid chromosomes: the
result is never the sentinel, and on the division branch the
coefficient-of-variation denominator (the mean) and the epsilon-guarded
uniformity denominator are both nonzero. -/
theorem aptidao_total_sem_divisao_por_zero (c : List ℝ) (hlen : c.length = 18)
    (hval : ∀ b ∈ reshape3 c, bobina_valida b) :
    calcular_aptidao c ≠ -1e9 ∧
    (¬ media (perfil_campo (reshape3 c)) < 0.1 →
      media (perfil_campo (reshape3 c)) ≠ 0 ∧
      desvio_padrao (perfil_campo (reshape3 c)) /
        media (perfil_campo (reshape3 c)) + 1e-9 ≠ 0) := by
  refine ⟨(calcular_aptidao_maior_sentinela c hval).ne', fun hm => ?_⟩
  rw [not_lt] at hm
  have hm0 : 0 < media (perfil_campo (reshape3 c)) := lt_of_lt_of_le (by norm_num) hm
  have hdp : 0 ≤ desvio_padrao (perfil_campo (reshape3 c)) := Real.sqrt_nonneg _
  have hden : 0 < desvio_padrao (perfil_campo (reshape3 c)) /
      media (perfil_campo (reshape3 c)) + 1e-9 := by
    have h1 : 0 ≤ desvio_padrao (perfil_campo (reshape3 c)) /
        media (perfil_campo (reshape3 c)) := div_nonneg hdp hm0.le
    have h2 : (0 : ℝ) < 1e-9 := by norm_num
    linarith
  exact ⟨hm0.ne', hden.ne'⟩

/-- Witness for C5 on the concrete strong chromosome. -/
theorem aptidao_total_sem_divisao_por_zero_witness :
    cromossomo_forte.length = 18 ∧
    (∀ b ∈ reshape3 cromossomo_forte, bobina_valida b) ∧
    calcular_aptidao cromossomo_forte ≠ -1e9 := by
  have hlen : cromossomo_forte.length = 18 := by rw [cromossomo_forte]; rfl
  have hval : ∀ b ∈ reshape3 cromossomo_forte, bobina_valida b := by
    rw [reshape3_forte]
    intro b hb
    simp only [List.mem_cons, List.not_mem_nil, or_false] at hb
    rcases hb with rfl | rfl | rfl | rfl | rfl | rfl <;>
      exact ⟨by norm_num [RAIO_MINIMO], by norm_num⟩
  exact ⟨hlen, hval, (aptidao_total_sem_divisao_por_zero _ hlen hval).1⟩

/-! ### The claims about crossover -/

/-- C6 (amended): with parents of length 18 and a cut point in the actual
np.random.randint(1, 17) support 1..16, the coin below the crossover rate
makes the children swap tails at the cut, the complementary coin returns
the parents unchanged, and both outputs always have length 18. -/
theorem cruzamento_corta_ou_copia (pai1 pai2 : List ℚ)
    (h1 : pai1.length = 18) (h2 : pai2.length = 18)
    (r : ℚ) (ponto : ℕ) (hp : ponto ∈ pontos_corte 18) :
    ((cruzamento r ponto pai1 pai2).1.length = 18 ∧
      (cruzamento r ponto pai1 pai2).2.length = 18) ∧
    (r < (TAXA_CRUZAMENTO : ℚ) →
      cruzamento r ponto pai1 pai2 =
        (pai1.take ponto ++ pai2.drop ponto, pai2.take ponto ++ pai1.drop ponto)) ∧
    (¬ r < (TAXA_CRUZAMENTO : ℚ) → cruzamento r ponto pai1 pai2 = (pai1, pai2)) := by
  rw [pontos_corte, Finset.mem_Ico] at hp
  refine ⟨?_, fun hr => by rw [cruzamento, if_pos hr], fun hr => by rw [cruzamento, if_neg hr]⟩
  by_cases hr : r < (TAXA_CRUZAMENTO : ℚ)
  · rw [cruzamento, if_pos hr]
    constructor <;>
      · simp only [List.length_append, List.length_take, List.length_drop, h1, h2]
        omega
  · rw [cruzamento, if_neg hr]
    exact ⟨h1, h2⟩

/-- C6 counterexample: for L = 18 the claimed cut support [1, L - 1], read
as the integer interval 1..17, is not what the code draws from: 17 is in
the claimed support but np.random.randint(1, 17) never returns it. -/
theorem cruzamento_ponto_17_inatingivel :
    17 ∈ Finset.Icc 1 17 ∧ 17 ∉ pontos_corte 18 ∧ pontos_corte 18 ≠ Finset.Icc 1 17 := by
  refine ⟨by decide, by decide, by decide⟩

/-- Witness for C6 on concrete parents, cut point 5, both coin outcomes. -/
theorem cruzamento_corta_ou_copia_witness :
    (5 ∈ pontos_corte 18) ∧
    cruzamento 0 5 genes_a genes_b =
      (genes_a.take 5 ++ genes_b.drop 5, genes_b.take 5 ++ genes_a.drop 5) ∧
    cruzamento 1 5 genes_a genes_b = (genes_a, genes_b) := by
  have h0 := cruzamento_corta_ou_copia genes_a genes_b (by decide) (by decide) 0 5 (by decide)
  have h1 := cruzamento_corta_ou_copia genes_a genes_b (by decide) (by decide) 1 5 (by decide)
  exact ⟨by decide, h0.2.1 (by norm_num [TAXA_CRUZAMENTO]),
    h1.2.2 (by norm_num [TAXA_CRUZAMENTO])⟩

/-! ### The claims about mutation -/

lemma ite_lt_eq_max (a y : ℚ) : (if y < a then a else y) = max a y := by
  rcases le_or_lt a y with h | h
  · rw [if_neg (not_lt.mpr h), max_eq_right h]
  · rw [if_pos h, max_eq_left h.le]

lemma map_range_getD {γ : Type} (c : List γ) (d : γ) :
    (List.range c.length).map (fun i => c.getD i d) = c := by
  apply List.ext_getElem
  · simp
  · intro i h1 h2
    simp only [List.getElem_map, List.getElem_range]
    rw [List.getD_eq_getElem c d h2]

lemma mutacao_getD (taxa : ℚ) (coin ruido : ℕ → ℚ) (c : List ℚ) (i : ℕ)
    (hi : i < c.length) :
    (mutacao taxa coin ruido c).getD i 0 =
      mutacao_gene taxa i (coin i) (ruido i) (c.getD i 0) := by
  rw [mutacao]
  have hi2 : i < ((List.range c.length).map fun i =>
      mutacao_gene taxa i (coin i) (ruido i) (c.getD i 0)).length := by
    simpa using hi
  rw [List.getD_eq_getElem _ _ hi2]
  simp only [List.getElem_map, List.getElem_range]

/-- C8: mutation with rate 0 (given coins from np.random.rand, all at
least 0) returns the chromosome unchanged; with rate 1 (coins below 1) the
gene count is preserved and every gene is perturbed by its own noise draw
(ruido i models the np.random.normal(0, 0.2) sample): each radius gene
(index 0 mod 3) ends as the max of RAIO_MINIMO and its perturbed value —
hence at least RAIO_MINIMO, clamped up exactly when the perturbed value
fell below — while position and current genes are exactly their perturbed
values, never clamped. -/
theorem mutacao_taxa_zero_um (c : List ℚ) (coin ruido : ℕ → ℚ)
    (hc0 : ∀ i, 0 ≤ coin i) (hc1 : ∀ i, coin i < 1) :
    mutacao 0 coin ruido c = c ∧
    (mutacao 1 coin ruido c).length = c.length ∧
    (∀ i, i < c.length → i % 3 = 0 →
      (mutacao 1 coin ruido c).getD i 0 = max (RAIO_MINIMO : ℚ) (c.getD i 0 + ruido i) ∧
      (RAIO_MINIMO : ℚ) ≤ (mutacao 1 coin ruido c).getD i 0) ∧
    (∀ i, i < c.length → i % 3 ≠ 0 →
      (mutacao 1 coin ruido c).getD i 0 = c.getD i 0 + ruido i) := by
  refine ⟨?_, ?_, fun i hi h3 => ?_, fun i hi h3 => ?_⟩
  · rw [mutacao]
    have hcong : ∀ i ∈ List.range c.length,
        mutacao_gene 0 i (coin i) (ruido i) (c.getD i 0) = c.getD i 0 := by
      intro i _
      rw [mutacao_gene, if_neg (not_lt.mpr (hc0 i))]
    rw [List.map_congr_left hcong, map_range_getD]
  · rw [mutacao, List.length_map, List.length_range]
  · rw [mutacao_getD _ _ _ _ _ hi, mutacao_gene, if_pos (hc1 i)]
    simp only [h3, true_and]
    rw [ite_lt_eq_max]
    exact ⟨rfl, le_max_left _ _⟩
  · rw [mutacao_getD _ _ _ _ _ hi, mutacao_gene, if_pos (hc1 i)]
    rw [if_neg fun hand => h3 hand.1]

/-- Witness for C8: rate 0 leaves the concrete chromosome [1, 2, 3]
unchanged; rate 1 with noise -1 on every gene keeps the gene count at 3,
perturbs the first (radius) gene to 1 + -1 = 0 and clamps it up to
RAIO_MINIMO = 1/2, and shifts the second (position) gene by exactly the
noise with no clamping. -/
theorem mutacao_taxa_zero_um_witness :
    mutacao 0 (fun _ => 0) (fun _ => -1) [1, 2, 3] = [1, 2, 3] ∧
    (mutacao 1 (fun _ => 0) (fun _ => -1) [1, 2, 3]).length = 3 ∧
    (mutacao 1 (fun _ => 0) (fun _ => -1) [1, 2, 3]).getD 0 0 =
      max (RAIO_MINIMO : ℚ) (([1, 2, 3] : List ℚ).getD 0 0 + -1) ∧
    (mutacao 1 (fun _ => 0) (fun _ => -1) [1, 2, 3]).getD 0 0 = 1 / 2 ∧
    (RAIO_MINIMO : ℚ) ≤ (mutacao 1 (fun _ => 0) (fun _ => -1) [1, 2, 3]).getD 0 0 ∧
    (mutacao 1 (fun _ => 0) (fun _ => -1) [1, 2, 3]).getD 1 0 =
      ([1, 2, 3] : List ℚ).getD 1 0 + -1 := by
  have h := mutacao_taxa_zero_um [1, 2, 3] (fun _ => 0) (fun _ => -1)
    (fun _ => le_refl 0) (fun _ => by norm_num)
  have h0 := h.2.2.1 0 (by norm_num) (by norm_num)
  refine ⟨h.1, ?_, h0.1, ?_, h0.2, h.2.2.2 1 (by norm_num) (by norm_num)⟩
  · rw [h.2.1]
    rfl
  · rw [h0.1]
    simp only [List.getD_cons_zero]
    rw [show (1 : ℚ) + -1 = 0 by norm_num,
      max_eq_left (by norm_num [RAIO_MINIMO] : (0 : ℚ) ≤ RAIO_MINIMO)]
    norm_num [RAIO_MINIMO]

/-! ### The reproduction phase mutates the current population (C7) -/

lemma mutacao_sem_moeda (taxa : ℚ) (coin ruido : ℕ → ℚ) (c : List ℚ)
    (h : ∀ i, ¬ coin i < taxa) : mutacao taxa coin ruido c = c := by
  rw [mutacao]
  have hcong : ∀ i ∈ List.range c.length,
      mutacao_gene taxa i (coin i) (ruido i) (c.getD i 0) = c.getD i 0 := by
    intro i _
    rw [mutacao_gene, if_neg (h i)]
  rw [List.map_congr_left hcong, map_range_getD]

/-- C7 fails on the code: a concrete reproduction step in which the
crossover coin takes the identity branch (children alias the parents) and
one mutation coin fires changes the current population array itself: the
chromosome at index 0 becomes [2, 1, 1]. -/
theorem reproducao_altera_populacao_atual :
    (passo_par [[1, 1, 1]] 0 0 (9 / 10) 1
      (fun i => if i = 0 then 0 else 1) (fun _ => 1) (fun _ => 1) (fun _ => 1)).1 =
      [[2, 1, 1]] ∧
    ([[2, 1, 1]] : List (List ℚ)) ≠ [[1, 1, 1]] := by
  constructor
  · have hcruz : ¬ (9 / 10 : ℚ) < TAXA_CRUZAMENTO := by norm_num [TAXA_CRUZAMENTO]
    have hrange : List.range (3 : ℕ) = [0, 1, 2] := by decide
    have hmut1 : mutacao TAXA_MUTACAO (fun i => if i = 0 then 0 else 1)
        (fun _ => 1) [1, 1, 1] = [2, 1, 1] := by
      rw [mutacao]
      norm_num [hrange, mutacao_gene, TAXA_MUTACAO, RAIO_MINIMO, List.getD]
    have hmut2 : mutacao TAXA_MUTACAO (fun _ => 1) (fun _ => 1) [2, 1, 1] = [2, 1, 1] :=
      mutacao_sem_moeda _ _ _ _ (fun i => by norm_num [TAXA_MUTACAO])
    rw [passo_par]
    simp only [cruzamento_ref, if_neg hcruz, mutacao_ref, deref, List.getD]
    norm_num [hmut1, hmut2, List.set]
  · intro h
    rw [List.cons.injEq, List.cons.injEq] at h
    have := h.1.1
    norm_num at this

/-! ### Degenerate configurations are not rejected at construction (C9) -/

lemma loop_reproducao_length (tam_pop : ℕ) (par : ℕ → List ℚ × List ℚ) :
    (loop_reproducao tam_pop par).length = 2 * (tam_pop / 2) := by
  rw [loop_reproducao]
  suffices h : ∀ (l : List ℕ) (acc : List (List ℚ)),
      (l.foldl (fun acc k => acc ++ [(par k).1, (par k).2]) acc).length =
        acc.length + 2 * l.length by
    simpa using h (List.range (tam_pop / 2)) []
  intro l
  induction l with
  | nil => intro acc; simp
  | cons x xs ih =>
    intro acc
    rw [List.foldl_cons, ih]
    simp only [List.length_append, List.length_cons, List.length_nil]
    omega

/-- C9 counterexample: population size 2 with the default tournament size 3
is a degenerate configuration, yet initialization succeeds with no
validation (a population of size 2 is built), and the error only surfaces
inside selection — a mid-run fault, not a construction-time one. -/
theorem configuracao_degenerada_sem_validacao :
    (inicializar_populacao 2 fun _ _ => 1 / 2).length = 2 ∧
    selecao TAMANHO_TORNEIO (inicializar_populacao 2 fun _ _ => 1 / 2)
      ([] : List ℚ) [0, 1] =
      Except.error "Cannot take a larger sample than population when replace=False" := by
  have hlen : (inicializar_populacao 2 fun _ _ => 1 / 2).length = 2 := by
    rw [inicializar_populacao, List.length_map, List.length_range]
  refine ⟨hlen, ?_⟩
  rw [selecao, np_random_choice, hlen, if_pos (by norm_num [ TAMANHO_TORNEIO])]
  rfl

/-- C9 (amended): no degenerate configuration is rejected at construction:
initialization returns a population of the requested size for any
configuration; a tournament size exceeding the population size makes
selection (np.random.choice) fail mid-run; and an odd population size is
silently truncated, the reproduction loop emitting 2 * (tam_pop / 2)
children per generation. -/
theorem configuracao_degenerada_falha_tardia (tam_pop tam_torneio : ℕ)
    (rand : ℕ → ℕ → ℚ) (populacao : List (List ℚ)) (aptidoes : List ℚ)
    (amostra : List ℕ) (par : ℕ → List ℚ × List ℚ)
    (h : populacao.length < tam_torneio) :
    (inicializar_populacao tam_pop rand).length = tam_pop ∧
    (∃ msg, selecao tam_torneio populacao aptidoes amostra = Except.error msg) ∧
    (loop_reproducao tam_pop par).length = 2 * (tam_pop / 2) := by
  refine ⟨?_, ?_, loop_reproducao_length tam_pop par⟩
  · rw [inicializar_populacao, List.length_map, List.length_range]
  · rw [selecao, np_random_choice, if_pos h]
    exact ⟨_, rfl⟩

/-- Witness for C9 at a concrete degenerate configuration: population size
5 (odd), tournament size 9 over a 4-member population. -/
theorem configuracao_degenerada_falha_tardia_witness :
    (inicializar_populacao 5 fun _ _ => 0).length = 5 ∧
    (∃ msg, selecao 9 ([[1], [2], [3], [4]] : List (List ℚ)) ([] : List ℚ) [0] =
      Except.error msg) ∧
    (loop_reproducao 5 fun _ => ([], [])).length = 2 * (5 / 2) := by
  exact configuracao_degenerada_falha_tardia 5 9 (fun _ _ => 0)
    [[1], [2], [3], [4]] [] [0] (fun _ => ([], [])) (by norm_num)

/-! ### First-occurrence tie-breaking of max and argmax (C10) -/

lemma foldl_max_primeiro {β : Type} [LinearOrder β] (key : ℕ → β) (xs : List ℕ) :
    ∀ x : ℕ, ∃ l1 l2,
      x :: xs = l1 ++ xs.foldl (fun acc y => if key acc < key y then y else acc) x :: l2 ∧
      (∀ y ∈ l1, key y < key (xs.foldl (fun acc y => if key acc < key y then y else acc) x)) ∧
      (∀ y ∈ x :: xs, key y ≤ key (xs.foldl (fun acc y => if key acc < key y then y else acc) x)) := by
  induction xs with
  | nil =>
    intro x
    exact ⟨[], [], rfl, by simp, by simp⟩
  | cons y ys ih =>
    intro x
    simp only [List.foldl_cons]
    by_cases hxy : key x < key y
    · rw [if_pos hxy]
      obtain ⟨l1, l2, hdec, hlt, hle⟩ := ih y
      have hym : key y ≤ key (ys.foldl (fun acc y => if key acc < key y then y else acc) y) :=
        hle y (List.mem_cons_self _ _)
      refine ⟨x :: l1, l2, ?_, ?_, ?_⟩
      · rw [List.cons_append, ← hdec]
      · intro z hz
        rcases List.mem_cons.mp hz with rfl | hz2
        · exact lt_of_lt_of_le hxy hym
        · exact hlt z hz2
      · intro z hz
        rcases List.mem_cons.mp hz with rfl | hz2
        · exact (lt_of_lt_of_le hxy hym).le
        · exact hle z hz2
    · rw [if_neg hxy]
      obtain ⟨l1, l2, hdec, hlt, hle⟩ := ih x
      have hxm : key x ≤ key (ys.foldl (fun acc y => if key acc < key y then y else acc) x) :=
        hle x (List.mem_cons_self _ _)
      have hyx : key y ≤ key x := not_lt.mp hxy
      cases l1 with
      | nil =>
        simp only [List.nil_append] at hdec
        have hxeq : x = ys.foldl (fun acc y => if key acc < key y then y else acc) x :=
          (List.cons.injEq _ _ _ _ ▸ hdec).1
        refine ⟨[], y :: ys, ?_, by simp, ?_⟩
        · rw [List.nil_append, ← hxeq]
        · intro z hz
          rcases List.mem_cons.mp hz with rfl | hz2
          · exact hxm
          · rcases List.mem_cons.mp hz2 with rfl | hz3
            · exact hyx.trans hxm
            · exact hle z (List.mem_cons_of_mem _ hz3)
      | cons a l1t =>
        rw [List.cons_append] at hdec
        have hxa : x = a := (List.cons.injEq _ _ _ _ ▸ hdec).1
        have hys : ys = l1t ++ ys.foldl (fun acc y => if key acc < key y then y else acc) x :: l2 :=
          (List.cons.injEq _ _ _ _ ▸ hdec).2
        have hxlt : key x < key (ys.foldl (fun acc y => if key acc < key y then y else acc) x) := by
          have ha := hlt a (List.mem_cons_self _ _)
          rwa [← hxa] at ha
        refine ⟨x :: y :: l1t, l2, ?_, ?_, ?_⟩
        · rw [List.cons_append, List.cons_append, ← hys]
        · intro z hz
          rcases List.mem_cons.mp hz with rfl | hz2
          · exact hxlt
          · rcases List.mem_cons.mp hz2 with rfl | hz3
            · exact lt_of_le_of_lt hyx hxlt
            · exact hlt z (List.mem_cons_of_mem _ hz3)
        · intro z hz
          rcases List.mem_cons.mp hz with rfl | hz2
          · exact hxm
          · rcases List.mem_cons.mp hz2 with rfl | hz3
            · exact hyx.trans hxm
            · exact hle z (List.mem_cons_of_mem _ hz3)

/-- Python max with a key over a nonempty list returns the first element
attaining the maximal key: the list splits around the returned element
with everything before it strictly smaller. -/
lemma max_by_key_spec {β : Type} [LinearOrder β] (key : ℕ → β) (d : List ℕ)
    (hd : d ≠ []) :
    ∃ m l1 l2, max_by_key key d = some m ∧ d = l1 ++ m :: l2 ∧
      (∀ y ∈ l1, key y < key m) ∧ (∀ y ∈ d, key y ≤ key m) := by
  cases d with
  | nil => exact absurd rfl hd
  | cons x xs =>
    obtain ⟨l1, l2, h1, h2, h3⟩ := foldl_max_primeiro key xs x
    exact ⟨_, l1, l2, rfl, h1, h2, h3⟩

lemma range_decomp {n m : ℕ} {l1 l2 : List ℕ}
    (h : List.range n = l1 ++ m :: l2) : l1 = List.range m ∧ m < n := by
  have hmn : m < n := by
    have hm : m ∈ List.range n := by
      rw [h]
      exact List.mem_append_right _ (List.mem_cons_self _ _)
    simpa using hm
  have hlen : l1.length < n := by
    have hl := congrArg List.length h
    simp only [List.length_range, List.length_append, List.length_cons] at hl
    omega
  have hget : m = l1.length := by
    have h1 : (l1 ++ m :: l2)[l1.length]? = some m := by
      rw [List.getElem?_append_right (le_refl l1.length)]
      simp
    have h2 : (List.range n)[l1.length]? = some l1.length := List.getElem?_range hlen
    rw [← h] at h1
    rw [h1] at h2
    exact Option.some_inj.mp h2
  have htake : l1 = (List.range n).take l1.length := by
    rw [h, List.take_left]
  refine ⟨?_, hmn⟩
  rw [htake, ← hget, List.take_range, min_eq_left hmn.le]

lemma np_argmax_primeiro {β : Type} [LinearOrder β] [Inhabited β]
    (xs : List β) (h : xs ≠ []) :
    np_argmax xs < xs.length ∧
    (∀ j < xs.length, xs.getD j default ≤ xs.getD (np_argmax xs) default) ∧
    (∀ j < np_argmax xs, xs.getD j default < xs.getD (np_argmax xs) default) := by
  have hlen : 0 < xs.length := List.length_pos.mpr h
  have hrne : List.range xs.length ≠ [] := by
    rw [ne_eq, List.range_eq_nil]
    omega
  obtain ⟨m, l1, l2, hsome, hdec, hlt, hle⟩ :=
    max_by_key_spec (fun i => xs.getD i default) (List.range xs.length) hrne
  have hm : np_argmax xs = m := by rw [np_argmax, hsome]; rfl
  obtain ⟨hl1, hmn⟩ := range_decomp hdec
  rw [hm]
  refine ⟨hmn, ?_, ?_⟩
  · intro j hj
    exact hle j (by simpa using hj)
  · intro j hj
    exact hlt j (by rw [hl1]; simpa using hj)

/-- C10: the reported best individual is populacao[np.argmax(aptidoes)]
where np.argmax returns the smallest index attaining the maximum fitness
(everything before it is strictly worse, nothing beats it); and tournament
selection, via Python max with key, returns the first drawn index attaining
the maximum: the drawn list splits as l1 ++ m :: l2 with every key in l1
strictly below key m and no key in the whole list above it. -/
theorem melhor_individuo_selecao_primeiro {α β : Type} [LinearOrder β] [Inhabited β]
    (populacao : List (List α)) (aptidoes : List β) (h : aptidoes ≠ [])
    (key : ℕ → β) (sorteio : List ℕ) (hs : sorteio ≠ []) :
    (melhor_individuo populacao aptidoes = populacao.getD (np_argmax aptidoes) [] ∧
      np_argmax aptidoes < aptidoes.length ∧
      (∀ j < aptidoes.length,
        aptidoes.getD j default ≤ aptidoes.getD (np_argmax aptidoes) default) ∧
      (∀ j < np_argmax aptidoes,
        aptidoes.getD j default < aptidoes.getD (np_argmax aptidoes) default)) ∧
    (∃ m l1 l2, max_by_key key sorteio = some m ∧ sorteio = l1 ++ m :: l2 ∧
      (∀ y ∈ l1, key y < key m) ∧ (∀ y ∈ sorteio, key y ≤ key m)) := by
  obtain ⟨h1, h2, h3⟩ := np_argmax_primeiro aptidoes h
  exact ⟨⟨rfl, h1, h2, h3⟩, max_by_key_spec key sorteio hs⟩

/-- Witness for C10: fitness list [1, 3, 3, 2] has its maximum first at
index 1, and a tournament drawing indices [2, 1, 3] (keys 3, 3, 2) picks
index 2, the first drawn maximal one. -/
theorem melhor_individuo_selecao_primeiro_witness :
    melhor_individuo [[10], [20], [30], [40]] ([1, 3, 3, 2] : List ℚ) =
      ([[10], [20], [30], [40]] : List (List ℚ)).getD
        (np_argmax ([1, 3, 3, 2] : List ℚ)) [] ∧
    np_argmax ([1, 3, 3, 2] : List ℚ) < ([1, 3, 3, 2] : List ℚ).length ∧
    (∃ m l1 l2, max_by_key (fun i => ([1, 3, 3, 2] : List ℚ).getD i 0) [2, 1, 3] = some m ∧
      [2, 1, 3] = l1 ++ m :: l2 ∧
      (∀ y ∈ l1, ([1, 3, 3, 2] : List ℚ).getD y 0 < ([1, 3, 3, 2] : List ℚ).getD m 0) ∧
      (∀ y ∈ [2, 1, 3], ([1, 3, 3, 2] : List ℚ).getD y 0 ≤ ([1, 3, 3, 2] : List ℚ).getD m 0)) := by
  have h := melhor_individuo_selecao_primeiro ([[10], [20], [30], [40]] : List (List ℚ))
    ([1, 3, 3, 2] : List ℚ) (by simp)
    (fun i => ([1, 3, 3, 2] : List ℚ).getD i 0) [2, 1, 3] (by simp)
  exact ⟨h.1.1, h.1.2.1, h.2⟩

end AEG
